import Mathlib

/-!
Shallow embedding of the nimue database connection pool
(src/nimue/nimue.py, src/nimue/callback.py, src/nimue/error.py).

Members are identified by natural numbers; the raw session owned by a
member is tracked through the event log `closedSessions`, which records
the ids whose raw session has been closed, in order of closing.
Monotonic timestamps are modelled as integers.  Python dicts keyed by
member objects (`_pool`, `_use`) are modelled as insertion-ordered lists
of ids; `_free` is a list of ids exactly as in the source.  The single
pool mutex serialises all operations, so each operation is embedded as a
pure state transformer describing one lock-held critical section.
-/

/-- Timestamps carried by `_NimueConnectionPoolMember`: creation time,
last-touch time and last-check time, all monotonic. -/
structure MemberData where
  create_time : Int
  touch_time : Int
  check_time : Int
deriving DecidableEq

/-- Exception classes visible in the code.  The four Nimue kinds embed
src/nimue/error.py; `generic` is the builtin `Exception` that
src/nimue/nimue.py actually raises; `valueError` is the builtin
`ValueError`; `operationalError` stands for the transient error kind of
the driver module; `driverError` stands for any other error raised by a
raw session; `connectError` stands for an error raised by `connfunc`. -/
inductive ExcKind where
  | generic
  | invalidParameterValue
  | dbModuleFailure
  | poolClosedError
  | noConnectionAvailable
  | valueError
  | operationalError
  | driverError
  | connectError
deriving DecidableEq

/-- State of a `NimueConnectionPool`: member bookkeeping (`_pool`,
`_free`, `_use`), configuration, statistics counters, the log of closed
raw sessions, and the `_exitevent` flag. -/
structure PoolState where
  mdata : Nat → MemberData
  pool : List Nat
  free : List Nat
  use : List Nat
  poolmin : Int
  poolmax : Int
  cleanup_interval : Int
  idle_timeout : Int
  cleaned_dead : Nat
  cleaned_idle : Nat
  cleanup_cycles : Nat
  closedSessions : List Nat
  exitevent : Bool

/-- Reverse lexicographic test on key pairs: `lexLe p q` holds when
`p` is at most `q` in the lexicographic order on `Int × Int`.  Used to
embed the tuple comparisons of the Python sort keys. -/
def lexLe (p q : Int × Int) : Bool :=
  decide (p.1 < q.1) || (decide (p.1 = q.1) && decide (p.2 ≤ q.2))

/-- Insert `x` into `l` before the first element `y` with `le x y`.
Helper for `stableSort`. -/
def insertOrd (le : α → α → Bool) (x : α) : List α → List α
  | [] => [x]
  | y :: l => if le x y then x :: y :: l else y :: insertOrd le x l

/-- Structural stable sort (insertion sort).  For a total preorder `le`
a stable sort is unique, so this embeds the semantics of Python
`sorted`: equal elements keep their original relative order. -/
def stableSort (le : α → α → Bool) : List α → List α
  | [] => []
  | x :: l => insertOrd le x (stableSort le l)

/-- Embedding of Python `sorted(l, key=key, reverse=True)` for keys that
are pairs of numbers: a stable sort into descending key order. -/
def pySortRevBy (key : α → Int × Int) (l : List α) : List α :=
  stableSort (fun a b => lexLe (key b) (key a)) l

/-- Embedding of Python `sorted(l, reverse=True)` on indices. -/
def sortRevNat (l : List Nat) : List Nat :=
  stableSort (fun a b : Nat => decide (b ≤ a)) l

/-- Parameter validation at `NimueConnectionPool.__init__` (nimue.py
lines 69 to 84), checks performed in source order.  Every failing check
executes `raise Exception(...)`, embedded as `ExcKind.generic`.  Returns
`none` when every check passes. -/
def validateParams (poolinit : Option Int)
    (poolmin poolmax cleanup_interval idle_timeout : Int)
    (healthcheckCallable : Bool) : Option ExcKind :=
  if poolmin < 0 then some ExcKind.generic
  else if poolinit.any (fun v => decide (v < poolmin)) then some ExcKind.generic
  else if poolmax < 1 then some ExcKind.generic
  else if poolinit.any (fun v => decide (poolmax < v)) then some ExcKind.generic
  else if poolmax < poolmin then some ExcKind.generic
  else if cleanup_interval ≤ 0 then some ExcKind.generic
  else if idle_timeout < 0 then some ExcKind.generic
  else if ¬ healthcheckCallable then some ExcKind.generic
  else none

/-- Setter `NimueConnectionPool.poolmin` (nimue.py lines 164 to 171);
both failure branches raise the builtin `Exception`. -/
def setPoolmin (s : PoolState) (val : Int) : Except ExcKind PoolState :=
  if val < 0 then Except.error ExcKind.generic
  else if val > s.poolmax then Except.error ExcKind.generic
  else Except.ok { s with poolmin := val }

/-- Setter `NimueConnectionPool.poolmax` (nimue.py lines 180 to 187). -/
def setPoolmax (s : PoolState) (val : Int) : Except ExcKind PoolState :=
  if val < 1 then Except.error ExcKind.generic
  else if val < s.poolmin then Except.error ExcKind.generic
  else Except.ok { s with poolmax := val }

/-- Setter `NimueConnectionPool.cleanup_interval` (lines 195 to 200). -/
def setCleanupInterval (s : PoolState) (val : Int) : Except ExcKind PoolState :=
  if val ≤ 0 then Except.error ExcKind.generic
  else Except.ok { s with cleanup_interval := val }

/-- Setter `NimueConnectionPool.idle_timeout` (lines 208 to 213). -/
def setIdleTimeout (s : PoolState) (val : Int) : Except ExcKind PoolState :=
  if val < 0 then Except.error ExcKind.generic
  else Except.ok { s with idle_timeout := val }

/-- Outcome of the body of `healthcheck_callback_base` up to the
`except` clauses: the cursor open, query execution, fetch and rollback
either all succeed, raise the transient `dbmodule.OperationalError`, or
raise some other exception. -/
inductive QueryOutcome where
  | success
  | operationalError
  | otherError
deriving DecidableEq

/-- Return value of a health probe callback together with whether the
callback wrote an error level log record. -/
structure ProbeReturn where
  result : Bool
  loggedError : Bool
deriving DecidableEq

/-- Embedding of `healthcheck_callback_base` (callback.py lines 43 to
65): success returns true; `OperationalError` is caught and returns
false; any other exception is caught, logged via `logger.exception`,
and returns false.  The function itself never raises. -/
def healthcheck_callback_base : QueryOutcome → ProbeReturn
  | QueryOutcome.success => ⟨true, false⟩
  | QueryOutcome.operationalError => ⟨false, false⟩
  | QueryOutcome.otherError => ⟨false, true⟩

/-- Behaviour of one invocation of an arbitrary configured healthcheck
callback: it either returns a boolean or raises an exception. -/
inductive ProbeOutcome where
  | ok (b : Bool)
  | raise (e : ExcKind)
deriving DecidableEq

/-- The builtin callbacks (`healthcheck_callback_std`,
`healthcheck_callback_oracle`, and any user callback delegating to
`healthcheck_callback_base`) as a `ProbeOutcome`: they return the base
function result and never raise. -/
def builtinProbe (q : QueryOutcome) : ProbeOutcome :=
  ProbeOutcome.ok (healthcheck_callback_base q).result

/-- Embedding of `_NimueConnectionPoolMember.healthcheck` (nimue.py
lines 396 to 401): call the configured callback on the raw session,
then stamp `_check_time` and return the callback result.  There is no
`try` around the callback call, so an exception raised by the callback
propagates and `_check_time` is not updated. -/
def healthcheck (cb : ProbeOutcome) (now : Int) (m : MemberData) :
    Except ExcKind (Bool × MemberData) :=
  match cb with
  | ProbeOutcome.raise e => Except.error e
  | ProbeOutcome.ok b => Except.ok (b, { m with check_time := now })

/-- Embedding of `NimueConnectionPool._addconnection` (nimue.py lines
215 to 220): call `connfunc` (outcome scripted as `c`; `none` means the
call raised, and the exception propagates), build a member whose three
timestamps are the current time, record it in `_pool` (a dict, so the
new key is appended in insertion order) and push it on the head of
`_free`. -/
def addconnection (c : Option Nat) (now : Int) (s : PoolState) :
    Except ExcKind PoolState :=
  match c with
  | none => Except.error ExcKind.connectError
  | some mid =>
      Except.ok { s with
        mdata := fun i => if i = mid then ⟨now, now, now⟩ else s.mdata i,
        pool := s.pool ++ [mid],
        free := mid :: s.free }

/-- Result of the constructor loop `while len(self._pool) < initial:
self._addconnection()` (nimue.py lines 112 to 113).  `connectError`
carries the pool state at the moment the failing `connfunc` call
raised; `starved` is a modelling artifact for an exhausted outcome
script and is unreachable when the script covers every attempt. -/
inductive InitResult where
  | ok (s : PoolState)
  | connectError (s : PoolState)
  | starved (s : PoolState)

/-- State carried by an `InitResult`. -/
def initResultState : InitResult → PoolState
  | InitResult.ok s => s
  | InitResult.connectError s => s
  | InitResult.starved s => s

/-- Whether the constructor loop raised. -/
def initResultFailed : InitResult → Bool
  | InitResult.connectError _ => true
  | _ => false

/-- The constructor loop of `NimueConnectionPool.__init__`: add
connections until the pool holds `initial` members, where `initial` is
`poolinit` when given and `poolmin` otherwise (lines 108 to 113).  A
`connfunc` failure propagates out of the constructor at once. -/
def initPool (initial : Nat) (now : Int) :
    List (Option Nat) → PoolState → InitResult
  | conns, s =>
    if s.pool.length < initial then
      match conns with
      | [] => InitResult.starved s
      | c :: rest =>
        match addconnection c now s with
        | Except.error _ => InitResult.connectError s
        | Except.ok s2 => initPool initial now rest s2
    else InitResult.ok s

/-- CPython semantics of `threading.Condition.acquire(blocking, timeout)`
(an `RLock.acquire`) in the uncontended case: combining
`blocking=False` with a timeout other than the sentinel -1 raises
`ValueError: cant specify a timeout for a non-blocking call`; otherwise
the lock is granted.  `getconnection` passes -1 when its `timeout`
argument is `None` (nimue.py lines 310 to 315). -/
def lockAcquire (blocking : Bool) (timeout : Int) : Except ExcKind Bool :=
  if ¬ blocking ∧ timeout ≠ -1 then Except.error ExcKind.valueError
  else Except.ok true

/-- Result of `NimueConnectionPool.getconnection`: a connection bound to
a member, the Python value `None`, a raised exception, or one of two
modelling outcomes for the wait branch (`blocked`: the caller would
sleep on the condition variable, which a single-threaded quiescent
embedding does not model further) and for fuel exhaustion of the retry
loop (`fuelOut`). -/
inductive AcqResult where
  | conn (member : Nat) (s : PoolState)
  | noConn (s : PoolState)
  | blocked (s : PoolState)
  | fuelOut (s : PoolState)
  | raised (e : ExcKind)

/-- The `while True` loop of `getconnection` (nimue.py lines 327 to
364).  `health` scripts the boolean healthcheck result per member,
`hc_on` is `_healthcheck_on_getconnection`, `conns` scripts `connfunc`
outcomes for on-demand growth, and `fuel` bounds the number of loop
iterations (each iteration that continues has destroyed one member, and
the source loop can retry without bound). -/
def getconnLoop (health : Nat → Bool) (hc_on : Bool) (blocking : Bool)
    (now : Int) :
    Nat → List (Option Nat) → PoolState → AcqResult
  | 0, _, s => AcqResult.fuelOut s
  | Nat.succ fuel, conns, s =>
    match s.free with
    | m :: rest =>
      -- a free connection is available in the pool
      if hc_on && !(health m) then
        -- failed healthcheck: member.close(); del self._pool[member]; continue
        getconnLoop health hc_on blocking now fuel conns
          { s with free := rest,
                   pool := s.pool.erase m,
                   closedSessions := s.closedSessions ++ [m] }
      else
        AcqResult.conn m { s with free := rest, use := s.use ++ [m] }
    | [] =>
      if (s.pool.length : Int) < s.poolmax then
        -- room to grow: self._addconnection(); member = self._free.pop(0)
        match conns with
        | [] => AcqResult.raised ExcKind.connectError
        | c :: crest =>
          match c with
          | none => AcqResult.raised ExcKind.connectError
          | some mid =>
            let s2 : PoolState := { s with
              mdata := fun i => if i = mid then ⟨now, now, now⟩ else s.mdata i,
              pool := s.pool ++ [mid] }
            if hc_on && !(health mid) then
              getconnLoop health hc_on blocking now fuel crest
                { s2 with pool := s2.pool.erase mid,
                          closedSessions := s2.closedSessions ++ [mid] }
            else
              AcqResult.conn mid { s2 with use := s2.use ++ [mid] }
      else
        -- no free member and no capacity left
        if !blocking then AcqResult.noConn s
        else AcqResult.blocked s

/-- Embedding of `NimueConnectionPool.getconnection` (nimue.py lines
297 to 364): validate `timeout`, acquire the pool lock with the given
`blocking`/`timeout` pair, raise the builtin `Exception` if
`_exitevent` is set, then run the retry loop. -/
def getconnection (health : Nat → Bool) (hc_on : Bool) (blocking : Bool)
    (timeout : Option Int) (conns : List (Option Nat)) (fuel : Nat)
    (now : Int) (s : PoolState) : AcqResult :=
  if timeout.any (fun t => decide (t < 0)) then AcqResult.raised ExcKind.generic
  else
    let tval : Int := match timeout with | none => -1 | some t => t
    match lockAcquire blocking tval with
    | Except.error e => AcqResult.raised e
    | Except.ok r =>
      if !r then AcqResult.noConn s
      else if s.exitevent then AcqResult.raised ExcKind.generic
      else getconnLoop health hc_on blocking now fuel conns s

/-- Caller-visible state of a `NimueConnection` handle. -/
structure HandleState where
  member : Nat
  closed : Bool
deriving DecidableEq

/-- Embedding of `NimueConnection.close` (nimue.py lines 449 to 472).
`rollbackExc` scripts the `self._conn.rollback()` call: `some e` means
the rollback raised `e`.  The rollback is not wrapped in `try`, so its
exception propagates before any bookkeeping runs.  When `_exitevent` is
set the raw session is closed directly and no pool bookkeeping is
touched. -/
def connectionClose (h : HandleState) (rollbackExc : Option ExcKind)
    (now : Int) (s : PoolState) : Except ExcKind (HandleState × PoolState) :=
  if h.closed then Except.ok (h, s)
  else if s.exitevent then
    Except.ok ({ h with closed := true },
      { s with closedSessions := s.closedSessions ++ [h.member] })
  else
    match rollbackExc with
    | some e => Except.error e
    | none =>
      Except.ok ({ h with closed := true },
        { s with
          use := s.use.erase h.member,
          free := h.member :: s.free,
          mdata := fun i =>
            if i = h.member then { s.mdata h.member with touch_time := now }
            else s.mdata i })

/-- Embedding of `NimueConnectionPool.close` (nimue.py lines 378 to
385): the entire body is `self._exitevent.set()` followed by
`self._cleanupthread.join()`.  Joining the cleanup thread has no effect
on the pool state (once the event is set the janitor loop exits without
running another cycle), so the only state change is the event flag. -/
def poolClose (s : PoolState) : PoolState :=
  { s with exitevent := true }

/-- One iteration of the dead sweep deletion loop of
`NimueConnectionPool._cleanpool` (nimue.py lines 231 to 238): close the
session of the free member at index `i` (errors swallowed), delete it
from `_pool` and `_free`, bump `_connections_cleaned_dead`.  The index
is always valid in the contexts where this is used. -/
def deadStep (s : PoolState) (i : Nat) : PoolState :=
  match s.free.get? i with
  | none => s
  | some m =>
    { s with closedSessions := s.closedSessions ++ [m],
             pool := s.pool.erase m,
             free := s.free.eraseIdx i,
             cleaned_dead := s.cleaned_dead + 1 }

/-- Dead sweep phase of `_cleanpool` (nimue.py lines 227 to 238): run
the healthcheck on every free member (stamping `_check_time`), collect
the indices that failed, and delete them in descending index order. -/
def deadSweep (health : Nat → Bool) (now : Int) (s : PoolState) : PoolState :=
  let checked : PoolState := { s with
    mdata := fun i =>
      if i ∈ s.free then { s.mdata i with check_time := now } else s.mdata i }
  let dead : List Nat := (List.range s.free.length).filter (fun i =>
    match s.free.get? i with
    | some m => !(health m)
    | none => false)
  (sortRevNat dead).foldl deadStep checked

/-- The idle removal budget `idletarget` of `_cleanpool` (nimue.py
lines 241 to 243): `len(self._pool) - self._poolmin`, capped by
`len(self._free)`. -/
def idleCapInt (s : PoolState) : Int :=
  let t : Int := (s.pool.length : Int) - s.poolmin
  if (s.free.length : Int) < t then (s.free.length : Int) else t

/-- Sort key used by the idle trim and the over cap trim of
`_cleanpool`: `(now - member._touch_time, member._create_time)`. -/
def memberKey (s : PoolState) (now : Int) (m : Nat) : Int × Int :=
  (now - (s.mdata m).touch_time, (s.mdata m).create_time)

/-- Indices into `_free` of the idle trim candidates (nimue.py lines
248 to 251): free members whose age since `_touch_time` strictly
exceeds `_idle_timeout`. -/
def idleCandidates (now : Int) (s : PoolState) : List Nat :=
  (List.range s.free.length).filter (fun i =>
    match s.free.get? i with
    | some m => decide (now - (s.mdata m).touch_time > s.idle_timeout)
    | none => false)

/-- The candidate indices selected for removal by the idle trim
(nimue.py line 254): the candidates sorted stably by key
`(age, create_time)` with `reverse=True` (so descending age and, among
equal ages, descending create time), truncated to the idle budget. -/
def idleChosen (now : Int) (s : PoolState) : List Nat :=
  (pySortRevBy (fun i =>
      match s.free.get? i with
      | some m => memberKey s now m
      | none => (0, 0))
    (idleCandidates now s)).take (idleCapInt s).toNat

/-- One iteration of the idle trim deletion loop (nimue.py lines 255 to
261): close the session of the free member at index `i` (errors
swallowed), delete it from `_pool` and `_free`, bump
`_connections_cleaned_idle`. -/
def idleStep (s : PoolState) (i : Nat) : PoolState :=
  match s.free.get? i with
  | none => s
  | some m =>
    { s with closedSessions := s.closedSessions ++ [m],
             pool := s.pool.erase m,
             free := s.free.eraseIdx i,
             cleaned_idle := s.cleaned_idle + 1 }

/-- Idle trim phase of `_cleanpool` (nimue.py lines 240 to 261): when
the idle budget is positive, delete the chosen candidates in descending
index order. -/
def idleTrim (now : Int) (s : PoolState) : PoolState :=
  if 0 < idleCapInt s then
    (sortRevNat (idleChosen now s)).foldl idleStep s
  else s

/-- One iteration of the over cap trim deletion loop (nimue.py lines
268 to 270) over a pair `(index, member)` captured by `enumerate`
before any deletion: delete the member from `_pool` and the index from
`_free`.  The loop body contains no `close()` call and bumps no
counter. -/
def overcapStep (s : PoolState) (p : Nat × Nat) : PoolState :=
  { s with pool := s.pool.erase p.2, free := s.free.eraseIdx p.1 }

/-- Over cap trim phase of `_cleanpool` (nimue.py lines 263 to 270):
when the pool exceeds `poolmax` (after `poolmax` was lowered), sort the
enumerated free list stably by `(age, create_time)` descending, keep
the first `len(pool) - poolmax` pairs, and delete them in descending
index order. -/
def overcapTrim (now : Int) (s : PoolState) : PoolState :=
  let excess : Int := (s.pool.length : Int) - s.poolmax
  if 0 < excess then
    let pairs := pySortRevBy (fun p : Nat × Nat => memberKey s now p.2)
      s.free.enum
    let chosen := stableSort (fun a b : Nat × Nat => decide (b.1 ≤ a.1))
      (pairs.take excess.toNat)
    chosen.foldl overcapStep s
  else s

/-- Refill phase of `_cleanpool` (nimue.py lines 272 to 279): while the
pool is below `poolmin`, attempt `_addconnection`; a failure is logged
and the loop moves to the next attempt.  `conns` scripts the outcome of
each `connfunc` call and is assumed to cover every attempt. -/
def refill (conns : List (Option Nat)) (now : Int) (s : PoolState) : PoolState :=
  let addtarget : Int := s.poolmin - (s.pool.length : Int)
  if 0 < addtarget then
    (conns.take addtarget.toNat).foldl (fun st c =>
      match addconnection c now st with
      | Except.ok st2 => st2
      | Except.error _ => st) s
  else s

/-- Embedding of one full cleanup cycle
`NimueConnectionPool._cleanpool` (nimue.py lines 222 to 280): dead
sweep, idle trim, over cap trim, refill, then bump `_cleanup_cycles`.
The single timestamp `now` stands for the monotonic clock readings of
the cycle. -/
def cleanpool (health : Nat → Bool) (now : Int) (conns : List (Option Nat))
    (s : PoolState) : PoolState :=
  let s1 := deadSweep health now s
  let s2 := idleTrim now s1
  let s3 := overcapTrim now s2
  let s4 := refill conns now s3
  { s4 with cleanup_cycles := s4.cleanup_cycles + 1 }

/-- Reverse lexicographic test matching the ordering WORDED IN claim C3
and spec section 4.4: age descending and, among equal ages, create time
ascending.  `claimLe a b` holds when `a` precedes `b` in that order. -/
def claimLe (p q : Int × Int) : Bool :=
  decide (q.1 < p.1) || (decide (p.1 = q.1) && decide (p.2 ≤ q.2))

/-- Candidate indices selected by the idle trim AS THE CLAIM STATES IT:
identical to `idleChosen` except that ties in age are broken by create
time ascending (oldest created first) instead of descending. -/
def idleChosenClaim (now : Int) (s : PoolState) : List Nat :=
  (stableSort (fun a b =>
      claimLe
        (match s.free.get? a with
         | some m => memberKey s now m
         | none => (0, 0))
        (match s.free.get? b with
         | some m => memberKey s now m
         | none => (0, 0)))
    (idleCandidates now s)).take (idleCapInt s).toNat

/-- The idle trim AS THE CLAIM STATES IT: `idleTrim` with the claimed
tie ordering. -/
def idleTrimClaim (now : Int) (s : PoolState) : PoolState :=
  if 0 < idleCapInt s then
    (sortRevNat (idleChosenClaim now s)).foldl idleStep s
  else s

/-- Members removed (and closed) by the idle trim phase: the values of
`_free` at the chosen indices, read in deletion (descending index)
order. -/
def idleVictims (now : Int) (s : PoolState) : List Nat :=
  (sortRevNat (idleChosen now s)).filterMap s.free.get?

/-- Member bound by a `getconnection` result, when one was returned. -/
def acqMemberOf : AcqResult → Option Nat
  | AcqResult.conn m _ => some m
  | _ => none

/-- Zeroed member timestamps, for concrete states. -/
def mdZero : MemberData := ⟨0, 0, 0⟩

/-- A pool state with the default configuration of the constructor and
no members; concrete scenario states below are updates of this one. -/
def basePool : PoolState where
  mdata := fun _ => mdZero
  pool := []
  free := []
  use := []
  poolmin := 10
  poolmax := 20
  cleanup_interval := 60
  idle_timeout := 300
  cleaned_dead := 0
  cleaned_idle := 0
  cleanup_cycles := 0
  closedSessions := []
  exitevent := false

/-- Scenario state for the over cap trim: two free members, member 0
created at 1 and last touched at 0, member 1 created at 2 and last
touched at 4, with `poolmax` lowered to 1. -/
def sC2 : PoolState :=
  { basePool with
    mdata := fun i => if i = 0 then ⟨1, 0, 0⟩ else ⟨2, 4, 4⟩,
    pool := [0, 1], free := [0, 1],
    poolmin := 0, poolmax := 1, idle_timeout := 300 }

/-- Scenario state for the idle trim tie ordering: two free members
with equal touch time 0 (so equal idle age) and create times 5 and 3,
an idle budget of one, and a zero idle timeout. -/
def sC3 : PoolState :=
  { basePool with
    mdata := fun i => if i = 0 then ⟨5, 0, 0⟩ else ⟨3, 0, 0⟩,
    pool := [0, 1], free := [0, 1],
    poolmin := 1, poolmax := 10, idle_timeout := 0 }

/-- Scenario state for handle close: member 0 is held by a caller, the
free list is empty, the pool is open. -/
def sC4 : PoolState :=
  { basePool with pool := [0], use := [0], poolmin := 0, poolmax := 2 }

/-- Scenario state for acquisition at capacity: both members in use,
the free list empty, inventory equal to `poolmax`. -/
def sFull : PoolState :=
  { basePool with pool := [0, 1], use := [0, 1], poolmin := 1, poolmax := 2 }

/-- The state `sFull` after the pool was closed. -/
def sClosedPool : PoolState :=
  { sFull with exitevent := true }

/-- Scenario state for construction: the freshly initialised empty
bookkeeping of `__init__` before the connection loop, with
`poolmin = 2`. -/
def sInit : PoolState :=
  { basePool with poolmin := 2, poolmax := 4 }

/-- Scenario state for the LIFO round trip: one free member with id 3. -/
def sC10 : PoolState :=
  { basePool with pool := [3], free := [3], poolmin := 1, poolmax := 2 }
theorem insertOrd_perm (le : α → α → Bool) (x : α) (l : List α) :
    List.Perm (insertOrd le x l) (x :: l) := by
  induction l with
  | nil => exact List.Perm.refl _
  | cons y l ih =>
    unfold insertOrd
    split
    · exact List.Perm.refl _
    · exact (ih.cons y).trans (List.Perm.swap x y l)

theorem stableSort_perm (le : α → α → Bool) (l : List α) :
    List.Perm (stableSort le l) l := by
  induction l with
  | nil => exact List.Perm.refl _
  | cons x l ih => exact (insertOrd_perm le x (stableSort le l)).trans (ih.cons x)

theorem mem_stableSort (le : α → α → Bool) (l : List α) (a : α) :
    a ∈ stableSort le l ↔ a ∈ l :=
  (stableSort_perm le l).mem_iff

theorem length_stableSort (le : α → α → Bool) (l : List α) :
    (stableSort le l).length = l.length :=
  (stableSort_perm le l).length_eq

theorem nodup_stableSort (le : α → α → Bool) (l : List α) (h : l.Nodup) :
    (stableSort le l).Nodup :=
  ((stableSort_perm le l).symm.nodup_iff).mp h

theorem pairwise_insertOrd (le : α → α → Bool)
    (htrans : ∀ a b c, le a b = true → le b c = true → le a c = true)
    (htotal : ∀ a b, le a b = true ∨ le b a = true)
    (x : α) (l : List α) (h : l.Pairwise (fun a b => le a b = true)) :
    (insertOrd le x l).Pairwise (fun a b => le a b = true) := by
  induction l with
  | nil => simp [insertOrd]
  | cons y l ih =>
    rcases List.pairwise_cons.mp h with ⟨hy, hl⟩
    unfold insertOrd
    split
    · rename_i hxy
      refine List.pairwise_cons.mpr ⟨?_, h⟩
      intro b hb
      rcases List.mem_cons.mp hb with rfl | hb
      · exact hxy
      · exact htrans x y b hxy (hy b hb)
    · rename_i hxy
      have hyx : le y x = true := by
        rcases htotal x y with h1 | h1
        · exact absurd h1 hxy
        · exact h1
      refine List.pairwise_cons.mpr ⟨?_, ih hl⟩
      intro b hb
      rcases (insertOrd_perm le x l).mem_iff.mp hb with h2
      rcases List.mem_cons.mp h2 with rfl | h2
      · exact hyx
      · exact hy b h2

theorem pairwise_stableSort (le : α → α → Bool)
    (htrans : ∀ a b c, le a b = true → le b c = true → le a c = true)
    (htotal : ∀ a b, le a b = true ∨ le b a = true)
    (l : List α) :
    (stableSort le l).Pairwise (fun a b => le a b = true) := by
  induction l with
  | nil => simp [stableSort]
  | cons x l ih => exact pairwise_insertOrd le htrans htotal x (stableSort le l) ih


theorem foldl_overcapStep_closedSessions (ps : List (Nat × Nat)) (s : PoolState) :
    ((ps.foldl overcapStep s).closedSessions = s.closedSessions) ∧
    ((ps.foldl overcapStep s).cleaned_dead = s.cleaned_dead) ∧
    ((ps.foldl overcapStep s).cleaned_idle = s.cleaned_idle) := by
  induction ps generalizing s with
  | nil => exact ⟨rfl, rfl, rfl⟩
  | cons p ps ih => exact ih (overcapStep s p)

/-- C1: the claim states that `NimueConnectionPool.close` closes the
raw session of every free member, removes those members from the
inventory, and blocks until all in use handles return.  The code only
sets `_exitevent` and joins the janitor: no session is closed, no
member leaves `_pool`, `_free` or `_use`, and the method returns
without waiting on any handle. -/
theorem poolClose_changes_only_exitevent : ∀ s : PoolState,
    (poolClose s).exitevent = true ∧
    (poolClose s).pool = s.pool ∧
    (poolClose s).free = s.free ∧
    (poolClose s).use = s.use ∧
    (poolClose s).closedSessions = s.closedSessions :=
  fun _ => ⟨rfl, rfl, rfl, rfl, rfl⟩

/-- C2: the claim states that every member removed by the over cap trim
has its raw session closed at removal.  The deletion loop of the over
cap phase contains no `close()` call: the closed session log is
unchanged by the whole phase, and in the concrete scenario `sC2`
member 0 is removed from the inventory with its session left open. -/
theorem overcapTrim_removes_without_closing :
    (∀ (now : Int) (s : PoolState),
      (overcapTrim now s).closedSessions = s.closedSessions) ∧
    (overcapTrim 10 sC2).pool = [1] ∧
    (overcapTrim 10 sC2).free = [1] ∧
    (overcapTrim 10 sC2).closedSessions = [] := by
  refine ⟨?_, by decide, by decide, by decide⟩
  intro now s
  unfold overcapTrim
  dsimp only
  split
  · exact (foldl_overcapStep_closedSessions _ _).1
  · rfl

/-- C4 counterexample: at the concrete state `sC4` (open pool, handle
on member 0), a driver error raised by the rollback propagates out of
`NimueConnection.close` instead of being swallowed, so the handle does
not complete its close and the member is not returned to the free
list. -/
theorem connectionClose_rollback_raises_concrete :
    connectionClose ⟨0, false⟩ (some ExcKind.driverError) 5 sC4 =
      Except.error ExcKind.driverError := rfl

/-- C4 amended: for every handle returned to a non closing pool, a
driver error raised by the rollback performed during
`NimueConnection.close` propagates to the caller; none of the close
bookkeeping runs, so the handle stays unclosed and the member stays in
`_use`. -/
theorem connectionClose_rollback_error_propagates (h : HandleState)
    (e : ExcKind) (now : Int) (s : PoolState)
    (hopen : h.closed = false) (hlive : s.exitevent = false) :
    connectionClose h (some e) now s = Except.error e := by
  simp [connectionClose, hopen, hlive]

theorem connectionClose_rollback_error_propagates_witness :
    connectionClose ⟨0, false⟩ (some ExcKind.driverError) 5 sC4 =
      Except.error ExcKind.driverError :=
  connectionClose_rollback_error_propagates ⟨0, false⟩ ExcKind.driverError 5 sC4
    rfl rfl

/-- C5 counterexample: a configured callback that raises the transient
kind propagates through `_NimueConnectionPoolMember.healthcheck`
instead of making it return false. -/
theorem healthcheck_propagates_callback_exception :
    healthcheck (ProbeOutcome.raise ExcKind.operationalError) 7 mdZero =
      Except.error ExcKind.operationalError := rfl

/-- C5 amended: the exception handling lives in the builtin callback
`healthcheck_callback_base`, not in `healthcheck`: with a builtin
callback, `healthcheck` returns true on success and false when the
probe body raises, logging at error level exactly for the non transient
kind; `healthcheck` itself propagates whatever a custom callback
raises. -/
theorem healthcheck_builtin_callback_spec :
    ∀ (now : Int) (m : MemberData),
      healthcheck (builtinProbe QueryOutcome.success) now m =
        Except.ok (true, { m with check_time := now }) ∧
      healthcheck (builtinProbe QueryOutcome.operationalError) now m =
        Except.ok (false, { m with check_time := now }) ∧
      (healthcheck_callback_base QueryOutcome.operationalError).loggedError
        = false ∧
      healthcheck (builtinProbe QueryOutcome.otherError) now m =
        Except.ok (false, { m with check_time := now }) ∧
      (healthcheck_callback_base QueryOutcome.otherError).loggedError = true :=
  fun _ _ => ⟨rfl, rfl, rfl, rfl, rfl⟩

/-- C6 counterexample: `getconnection` on a closed pool raises the
builtin `Exception` (nimue.py line 325), which is not the
`NimuePoolClosedError` kind declared in error.py. -/
theorem getconnection_closed_pool_not_typed :
    getconnection (fun _ => true) true true none [] 1 0 sClosedPool =
      AcqResult.raised ExcKind.generic ∧
    ExcKind.generic ≠ ExcKind.poolClosedError :=
  ⟨rfl, by decide⟩

/-- C6 amended: on a pool whose `_exitevent` is set, every
`getconnection` call that reaches the closed pool check (any blocking
call, and a non blocking call with `timeout=None`) raises the builtin
generic `Exception` (nimue.py line 325); a non blocking call with a
numeric timeout at least 0 raises `ValueError` from the lock
acquisition before the check, and a negative timeout raises the
generic timeout validation `Exception` (line 309); in no case is the
`NimuePoolClosedError` kind of error.py raised. -/
theorem getconnection_closed_pool_raises_generic
    (health : Nat → Bool) (hc_on blocking : Bool) (timeout : Option Int)
    (conns : List (Option Nat)) (fuel : Nat) (now : Int) (s : PoolState)
    (hclosed : s.exitevent = true) :
    ((blocking = true ∨ timeout = none) →
      getconnection health hc_on blocking timeout conns fuel now s =
        AcqResult.raised ExcKind.generic) ∧
    (∀ t, blocking = false → timeout = some t → 0 ≤ t →
      getconnection health hc_on blocking timeout conns fuel now s =
        AcqResult.raised ExcKind.valueError) ∧
    (getconnection health hc_on blocking timeout conns fuel now s ≠
      AcqResult.raised ExcKind.poolClosedError) := by
  refine ⟨?_, ?_, ?_⟩
  · rintro (hb | ht)
    · subst hb
      cases timeout with
      | none => simp [getconnection, lockAcquire, hclosed]
      | some t =>
        by_cases hlt : t < 0
        · simp [getconnection, hlt]
        · simp [getconnection, lockAcquire, hclosed, hlt]
    · subst ht
      simp [getconnection, lockAcquire, hclosed]
  · intro t hb ht hge
    subst hb
    subst ht
    have hlt : ¬ t < 0 := by omega
    have hne : t ≠ -1 := by omega
    simp [getconnection, lockAcquire, hlt, hne]
  · cases timeout with
    | none =>
      cases blocking <;> simp [getconnection, lockAcquire, hclosed]
    | some t =>
      by_cases hlt : t < 0
      · simp [getconnection, hlt]
      · cases blocking with
        | true => simp [getconnection, lockAcquire, hclosed, hlt]
        | false =>
          have hne : t ≠ -1 := by omega
          simp [getconnection, lockAcquire, hlt, hne]

theorem getconnection_closed_pool_raises_generic_witness :
    getconnection (fun _ => true) true true none [] 1 0 sClosedPool =
      AcqResult.raised ExcKind.generic ∧
    getconnection (fun _ => true) true false (some 0) [] 1 0 sClosedPool =
      AcqResult.raised ExcKind.valueError := by
  have h1 := getconnection_closed_pool_raises_generic (fun _ => true) true
    true none [] 1 0 sClosedPool rfl
  have h2 := getconnection_closed_pool_raises_generic (fun _ => true) true
    false (some 0) [] 1 0 sClosedPool rfl
  exact ⟨h1.1 (Or.inl rfl), h2.2.1 0 rfl rfl (by omega)⟩

/-- C8: the claim states that a non blocking `getconnection` with any
timeout that is `None` or at least 0 returns `None` on a full pool.
With `timeout=None` the call does return `None`, but with a numeric
timeout the lock acquisition `self._lock.acquire(False, timeout)`
raises `ValueError` before the pool state is even read, contradicting
the claim and the docstring statement that `timeout` has no effect when
`blocking` is false. -/
theorem getconnection_nonblocking_timeout_bug :
    getconnection (fun _ => true) true false (some 0) [] 2 0 sFull =
      AcqResult.raised ExcKind.valueError ∧
    getconnection (fun _ => true) true false (some 5) [] 2 0 sFull =
      AcqResult.raised ExcKind.valueError ∧
    getconnection (fun _ => true) true false none [] 2 0 sFull =
      AcqResult.noConn sFull ∧
    sFull.free = [] ∧
    (sFull.pool.length : Int) = sFull.poolmax ∧
    sFull.exitevent = false :=
  ⟨rfl, rfl, rfl, rfl, by decide, rfl⟩
/-- C7 counterexample: a failing validation raises the builtin
`Exception`, not the `NimueInvalidParameterValue` kind declared in
error.py: at `poolmin = -1` the constructor raises generic, and so does
the `poolmin` setter. -/
theorem validateParams_not_typed :
    validateParams none (-1) 20 60 300 true = some ExcKind.generic ∧
    setPoolmin basePool (-1) = Except.error ExcKind.generic ∧
    ExcKind.generic ≠ ExcKind.invalidParameterValue :=
  ⟨rfl, rfl, by decide⟩

/-- C7 amended: every parameter validation failure of the constructor
and of the four setters raises the builtin generic `Exception` (never
`NimueInvalidParameterValue`), and the failures are exactly the out of
range conditions listed in the claim. -/
theorem validation_failures_raise_generic :
    (∀ pi pm px ci it cb e, validateParams pi pm px ci it cb = some e →
      e = ExcKind.generic) ∧
    (∀ pi pm px ci it cb, (validateParams pi pm px ci it cb).isSome ↔
      (pm < 0 ∨ (∃ v, pi = some v ∧ v < pm) ∨ px < 1 ∨
       (∃ v, pi = some v ∧ px < v) ∨ px < pm ∨ ci ≤ 0 ∨ it < 0 ∨
       cb = false)) ∧
    (∀ s v e, setPoolmin s v = Except.error e → e = ExcKind.generic) ∧
    (∀ s v, (∃ e, setPoolmin s v = Except.error e) ↔ (v < 0 ∨ s.poolmax < v)) ∧
    (∀ s v e, setPoolmax s v = Except.error e → e = ExcKind.generic) ∧
    (∀ s v, (∃ e, setPoolmax s v = Except.error e) ↔ (v < 1 ∨ v < s.poolmin)) ∧
    (∀ s v e, setCleanupInterval s v = Except.error e → e = ExcKind.generic) ∧
    (∀ s v, (∃ e, setCleanupInterval s v = Except.error e) ↔ v ≤ 0) ∧
    (∀ s v e, setIdleTimeout s v = Except.error e → e = ExcKind.generic) ∧
    (∀ s v, (∃ e, setIdleTimeout s v = Except.error e) ↔ v < 0) := by
  refine ⟨?_, ?_, ?_, ?_, ?_, ?_, ?_, ?_, ?_, ?_⟩
  · intro pi pm px ci it cb e h
    unfold validateParams at h
    split_ifs at h <;> simp_all
  · intro pi pm px ci it cb
    cases pi with
    | none =>
      simp only [validateParams, Option.any_none]
      split_ifs <;> simp_all
    | some v =>
      simp only [validateParams, Option.any_some]
      split_ifs <;> simp_all
  · intro s v e h
    unfold setPoolmin at h
    split_ifs at h <;> simp_all
  · intro s v
    unfold setPoolmin
    split_ifs <;> simp_all
  · intro s v e h
    unfold setPoolmax at h
    split_ifs at h <;> simp_all
  · intro s v
    unfold setPoolmax
    split_ifs <;> simp_all
  · intro s v e h
    unfold setCleanupInterval at h
    split_ifs at h
    simp_all
  · intro s v
    unfold setCleanupInterval
    split_ifs <;> simp_all
  · intro s v e h
    unfold setIdleTimeout at h
    split_ifs at h
    simp_all
  · intro s v
    unfold setIdleTimeout
    split_ifs <;> simp_all

theorem validation_failures_raise_generic_witness :
    (validateParams none (-1) 20 60 300 true).isSome :=
  (validation_failures_raise_generic.2.1 none (-1) 20 60 300 true).mpr
    (Or.inl (by decide))

theorem initPool_closedSessions_invariant (initial : Nat) (now : Int) :
    ∀ (conns : List (Option Nat)) (s : PoolState),
      (initResultState (initPool initial now conns s)).closedSessions =
        s.closedSessions := by
  intro conns
  induction conns with
  | nil =>
    intro s
    unfold initPool
    split
    · rfl
    · rfl
  | cons c rest ih =>
    intro s
    unfold initPool
    split
    · cases c with
      | none => rfl
      | some mid => exact ih _
    · rfl

/-- C9 counterexample: with a `connfunc` script that succeeds once and
then raises, the constructor loop starting from the fresh state `sInit`
with target 2 fails, yet the session of the already opened member 0 is
still open: the closed session log is empty. -/
theorem initPool_failure_session_left_open :
    initResultFailed (initPool 2 0 [some 0, none] sInit) = true ∧
    (initResultState (initPool 2 0 [some 0, none] sInit)).pool = [0] ∧
    (initResultState (initPool 2 0 [some 0, none] sInit)).closedSessions
      = [] :=
  ⟨rfl, rfl, rfl⟩

/-- C9 amended: if a `connfunc` call during initial pool construction
raises, the constructor fails (the exception propagates), and every
session already opened by the constructor remains open: the constructor
loop never closes a session, whatever its outcome, as witnessed by the
closed session log being preserved, and in the concrete failing run
from `sInit` member 0 stays in the inventory with its session open. -/
theorem initPool_failure_no_close :
    (∀ (initial : Nat) (now : Int) (conns : List (Option Nat))
       (s : PoolState),
      (initResultState (initPool initial now conns s)).closedSessions =
        s.closedSessions) ∧
    initResultFailed (initPool 2 0 [some 0, none] sInit) = true ∧
    (initResultState (initPool 2 0 [some 0, none] sInit)).pool = [0] :=
  ⟨fun initial now => initPool_closedSessions_invariant initial now, rfl, rfl⟩

/-- C10: LIFO round trip.  On a non closing pool whose free list head
is `m`, with the acquire time healthcheck passing on `m` (or disabled),
`getconnection` returns a handle bound to `m`; closing that handle puts
`m` back at the head of the free list (nimue.py line 465), and a
further `getconnection` pops the head again (line 330) and returns a
handle bound to the same member `m`. -/
theorem getconnection_roundtrip_lifo (health : Nat → Bool) (hc_on : Bool)
    (conns : List (Option Nat)) (now1 now2 now3 : Int)
    (s : PoolState) (m : Nat) (rest : List Nat)
    (hfree : s.free = m :: rest) (hlive : s.exitevent = false)
    (hhc : hc_on = false ∨ health m = true) :
    ∃ s1 s2 s3,
      getconnection health hc_on true none conns 1 now1 s =
        AcqResult.conn m s1 ∧
      connectionClose ⟨m, false⟩ none now2 s1 =
        Except.ok (⟨m, true⟩, s2) ∧
      s2.free = m :: rest ∧
      getconnection health hc_on true none conns 1 now3 s2 =
        AcqResult.conn m s3 := by
  have hguard : (hc_on && !(health m)) = false := by
    rcases hhc with h | h <;> simp [h]
  obtain ⟨md, pool, free, use, pmin, pmax, ci, it, cd, cidle, cc, cs, ev⟩ := s
  simp only at hfree hlive
  subst hfree hlive
  refine ⟨⟨md, pool, rest, use ++ [m], pmin, pmax, ci, it, cd, cidle, cc,
      cs, false⟩,
    ⟨fun i => if i = m then { md m with touch_time := now2 } else md i,
      pool, m :: rest, (use ++ [m]).erase m, pmin, pmax, ci, it, cd, cidle,
      cc, cs, false⟩,
    ⟨fun i => if i = m then { md m with touch_time := now2 } else md i,
      pool, rest, ((use ++ [m]).erase m) ++ [m], pmin, pmax, ci, it, cd,
      cidle, cc, cs, false⟩, ?_, ?_, ?_, ?_⟩
  · simp [getconnection, lockAcquire, getconnLoop, hguard]
  · simp [connectionClose]
  · rfl
  · simp [getconnection, lockAcquire, getconnLoop, hguard]

theorem getconnection_roundtrip_lifo_witness :
    acqMemberOf (getconnection (fun _ => true) true true none [] 1 0 sC10) =
      some 3 := by
  obtain ⟨s1, s2, s3, h1, h2, h3, h4⟩ :=
    getconnection_roundtrip_lifo (fun _ => true) true [] 0 1 2 sC10 3 []
      rfl rfl (Or.inr rfl)
  rw [h1]
  rfl

theorem nodup_mem_eraseIdx :
    ∀ (l : List Nat) (i : Nat), l.Nodup → ∀ (hi : i < l.length) (a : Nat),
      (a ∈ l.eraseIdx i ↔ (a ∈ l ∧ a ≠ l.get ⟨i, hi⟩))
  | [], i, _, hi, a => absurd hi (by simp)
  | x :: l, 0, hn, hi, a => by
    rcases List.nodup_cons.mp hn with ⟨hx, hl⟩
    simp only [List.eraseIdx_cons_zero, List.get]
    constructor
    · intro ha
      refine ⟨List.mem_cons_of_mem x ha, ?_⟩
      rintro rfl
      exact hx ha
    · rintro ⟨ha, hne⟩
      rcases List.mem_cons.mp ha with rfl | ha
      · exact absurd rfl hne
      · exact ha
  | x :: l, Nat.succ i, hn, hi, a => by
    rcases List.nodup_cons.mp hn with ⟨hx, hl⟩
    have hi2 : i < l.length := by
      simpa using Nat.lt_of_succ_lt_succ hi
    simp only [List.eraseIdx_cons_succ, List.get]
    constructor
    · intro ha
      rcases List.mem_cons.mp ha with rfl | ha
      · refine ⟨List.mem_cons_self a l, ?_⟩
        intro hEq
        exact hx (hEq ▸ l.get_mem i hi2)
      · rcases (nodup_mem_eraseIdx l i hl hi2 a).mp ha with ⟨h1, h2⟩
        exact ⟨List.mem_cons_of_mem x h1, h2⟩
    · rintro ⟨ha, hne⟩
      rcases List.mem_cons.mp ha with rfl | ha
      · exact List.mem_cons_self a _
      · exact List.mem_cons_of_mem x
          ((nodup_mem_eraseIdx l i hl hi2 a).mpr ⟨ha, hne⟩)

theorem filterMap_get?_eraseIdx (l : List Nat) (i : Nat) (idxs : List Nat)
    (h : ∀ j ∈ idxs, j < i) :
    idxs.filterMap (l.eraseIdx i).get? = idxs.filterMap l.get? := by
  induction idxs with
  | nil => rfl
  | cons j rest ih =>
    have hj : j < i := h j (List.mem_cons_self j rest)
    have hrest : ∀ k ∈ rest, k < i := fun k hk => h k (List.mem_cons_of_mem j hk)
    have hget : (l.eraseIdx i).get? j = l.get? j := by
      rw [List.get?_eq_getElem?, List.get?_eq_getElem?]
      exact List.getElem?_eraseIdx_of_lt l i j hj
    simp only [List.filterMap_cons, hget, ih hrest]

theorem length_filterMap_get? (l : List Nat) (idxs : List Nat)
    (h : ∀ i ∈ idxs, i < l.length) :
    (idxs.filterMap l.get?).length = idxs.length := by
  induction idxs with
  | nil => rfl
  | cons i rest ih =>
    have hi : i < l.length := h i (List.mem_cons_self i rest)
    have hrest : ∀ k ∈ rest, k < l.length :=
      fun k hk => h k (List.mem_cons_of_mem i hk)
    have hget : l[i]? = some (l.get ⟨i, hi⟩) := by
      rw [← List.get?_eq_getElem?]
      exact List.get?_eq_get hi
    simp [List.filterMap_cons, List.get?_eq_getElem?, hget, ih hrest]

theorem foldl_idleStep_spec :
    ∀ (idxs : List Nat) (s : PoolState),
      idxs.Pairwise (fun a b => b < a) →
      (∀ i ∈ idxs, i < s.free.length) →
      s.free.Nodup → s.pool.Nodup →
      (∀ m, m ∈ s.free → m ∈ s.pool) →
      ((idxs.foldl idleStep s).free.Sublist s.free ∧
       (∀ m, m ∈ (idxs.foldl idleStep s).free ↔
          (m ∈ s.free ∧ m ∉ idxs.filterMap s.free.get?)) ∧
       (∀ m, m ∈ (idxs.foldl idleStep s).pool ↔
          (m ∈ s.pool ∧ m ∉ idxs.filterMap s.free.get?)) ∧
       (idxs.foldl idleStep s).closedSessions =
          s.closedSessions ++ idxs.filterMap s.free.get? ∧
       (idxs.foldl idleStep s).cleaned_idle = s.cleaned_idle + idxs.length)
  | [], s, _, _, _, _, _ => by
    simp [List.Sublist.refl]
  | i :: rest, s, hpw, hlt, hfn, hpn, hsub => by
    have hi : i < s.free.length := hlt i (List.mem_cons_self i rest)
    have hv : s.free.get? i = some (s.free.get ⟨i, hi⟩) := List.get?_eq_get hi
    rcases List.pairwise_cons.mp hpw with ⟨hresti, hpw2⟩
    have hstep : idleStep s i =
        { s with closedSessions := s.closedSessions ++ [s.free.get ⟨i, hi⟩],
                 pool := s.pool.erase (s.free.get ⟨i, hi⟩),
                 free := s.free.eraseIdx i,
                 cleaned_idle := s.cleaned_idle + 1 } := by
      simp only [idleStep, hv]
    have hlen : (s.free.eraseIdx i).length = s.free.length - 1 :=
      List.length_eraseIdx_of_lt hi
    have h2 : ∀ j ∈ rest, j < (s.free.eraseIdx i).length := by
      intro j hj
      have := hresti j hj
      omega
    have h3 : (s.free.eraseIdx i).Nodup := hfn.eraseIdx i
    have h4 : (s.pool.erase (s.free.get ⟨i, hi⟩)).Nodup :=
      hpn.erase (s.free.get ⟨i, hi⟩)
    have hmemfree : ∀ m, m ∈ s.free.eraseIdx i ↔
        (m ∈ s.free ∧ m ≠ s.free.get ⟨i, hi⟩) :=
      nodup_mem_eraseIdx s.free i hfn hi
    have hmempool : ∀ m, m ∈ s.pool.erase (s.free.get ⟨i, hi⟩) ↔
        (m ≠ s.free.get ⟨i, hi⟩ ∧ m ∈ s.pool) :=
      fun m => hpn.mem_erase_iff
    have h5 : ∀ m, m ∈ s.free.eraseIdx i →
        m ∈ s.pool.erase (s.free.get ⟨i, hi⟩) := by
      intro m hm
      rcases (hmemfree m).mp hm with ⟨h6, h7⟩
      exact (hmempool m).mpr ⟨h7, hsub m h6⟩
    have hvict : rest.filterMap (s.free.eraseIdx i).get? =
        rest.filterMap s.free.get? :=
      filterMap_get?_eraseIdx s.free i rest hresti
    have ih := foldl_idleStep_spec rest (idleStep s i)
      hpw2 (by rw [hstep]; exact h2) (by rw [hstep]; exact h3)
      (by rw [hstep]; exact h4) (by rw [hstep]; exact h5)
    rw [hstep] at ih
    rcases ih with ⟨ih1, ih2, ih3, ih4, ih5⟩
    have hfold : (i :: rest).foldl idleStep s =
        rest.foldl idleStep (idleStep s i) := rfl
    rw [hfold, hstep]
    have hv2 : s.free[i]? = some (s.free.get ⟨i, hi⟩) := by
      rw [← List.get?_eq_getElem?]
      exact hv
    have hvcons : (i :: rest).filterMap s.free.get? =
        s.free.get ⟨i, hi⟩ :: rest.filterMap s.free.get? := by
      simp [List.filterMap_cons, List.get?_eq_getElem?, hv2]
    refine ⟨?_, ?_, ?_, ?_, ?_⟩
    · exact ih1.trans (List.eraseIdx_sublist s.free i)
    · intro m
      rw [ih2 m, hvict, hvcons, hmemfree m]
      simp only [List.mem_cons, not_or]
      tauto
    · intro m
      rw [ih3 m, hvict, hvcons, hmempool m]
      simp only [List.mem_cons, not_or]
      tauto
    · rw [ih4, hvict, hvcons]
      simp [List.append_assoc]
    · rw [ih5]
      simp only [List.length_cons]
      omega

theorem idleChosen_subset_candidates (now : Int) (s : PoolState) :
    ∀ i ∈ sortRevNat (idleChosen now s), i ∈ idleCandidates now s := by
  intro i hi
  have h1 : i ∈ idleChosen now s := (mem_stableSort _ _ i).mp hi
  have h2 : i ∈ pySortRevBy (fun i =>
      match s.free.get? i with
      | some m => memberKey s now m
      | none => (0, 0)) (idleCandidates now s) :=
    List.mem_of_mem_take h1
  exact (mem_stableSort _ _ i).mp h2

theorem idleCandidates_lt (now : Int) (s : PoolState) :
    ∀ i ∈ idleCandidates now s, i < s.free.length := by
  intro i hi
  have := List.mem_filter.mp hi
  exact List.mem_range.mp this.1

theorem idleCandidates_nodup (now : Int) (s : PoolState) :
    (idleCandidates now s).Nodup :=
  (List.nodup_range s.free.length).filter _

theorem delOrder_nodup (now : Int) (s : PoolState) :
    (sortRevNat (idleChosen now s)).Nodup := by
  apply nodup_stableSort
  apply List.Nodup.sublist (List.take_sublist _ _)
  exact nodup_stableSort _ _ (idleCandidates_nodup now s)

theorem delOrder_pairwise (now : Int) (s : PoolState) :
    (sortRevNat (idleChosen now s)).Pairwise (fun a b => b < a) := by
  have h1 : (sortRevNat (idleChosen now s)).Pairwise
      (fun a b : Nat => decide (b ≤ a) = true) := by
    apply pairwise_stableSort
    · intro a b c hab hbc
      have h1 := of_decide_eq_true hab
      have h2 := of_decide_eq_true hbc
      exact decide_eq_true (Nat.le_trans h2 h1)
    · intro a b
      rcases Nat.le_total b a with h | h
      · exact Or.inl (decide_eq_true h)
      · exact Or.inr (decide_eq_true h)
  have h2 : (sortRevNat (idleChosen now s)).Pairwise (fun a b => a ≠ b) :=
    delOrder_nodup now s
  refine (h1.and h2).imp ?_
  intro a b hab
  have h3 := of_decide_eq_true hab.1
  exact Nat.lt_of_le_of_ne h3 (Ne.symm hab.2)

/-- C3 amended: in the idle trim phase with positive budget
`idle_cap = min(|inventory| - poolmin, |free|)`, exactly the free
members whose age since touch time strictly exceeds the idle timeout
are candidates; the candidates are ordered stably by age descending
and, among equal ages, by create time DESCENDING (newest created
first, since the source applies `reverse=True` to the whole
`(age, create_time)` key), and the first `idle_cap` of them in that
order (the `idleVictims`) are closed exactly once and removed from
both the free list and the inventory, with `cleaned_idle` incremented
once per removal. -/
theorem idleTrim_amended_spec (now : Int) (s : PoolState)
    (hfn : s.free.Nodup) (hpn : s.pool.Nodup)
    (hsub : ∀ m ∈ s.free, m ∈ s.pool)
    (hcap : 0 < idleCapInt s) :
    ((idleTrim now s).free.Sublist s.free) ∧
    (∀ m, m ∈ (idleTrim now s).free ↔
      (m ∈ s.free ∧ m ∉ idleVictims now s)) ∧
    (∀ m, m ∈ (idleTrim now s).pool ↔
      (m ∈ s.pool ∧ m ∉ idleVictims now s)) ∧
    ((idleTrim now s).closedSessions =
      s.closedSessions ++ idleVictims now s) ∧
    ((idleTrim now s).cleaned_idle =
      s.cleaned_idle + (idleVictims now s).length) ∧
    ((idleVictims now s).length =
      min (idleCapInt s).toNat (idleCandidates now s).length) ∧
    (∀ m ∈ idleVictims now s,
      m ∈ s.free ∧ now - (s.mdata m).touch_time > s.idle_timeout) := by
  have hlt : ∀ i ∈ sortRevNat (idleChosen now s), i < s.free.length :=
    fun i hi => idleCandidates_lt now s i (idleChosen_subset_candidates now s i hi)
  have hspec := foldl_idleStep_spec (sortRevNat (idleChosen now s)) s
    (delOrder_pairwise now s) hlt hfn hpn hsub
  have htrim : idleTrim now s =
      (sortRevNat (idleChosen now s)).foldl idleStep s := by
    unfold idleTrim
    rw [if_pos hcap]
  rcases hspec with ⟨h1, h2, h3, h4, h5⟩
  have hlenvict : (idleVictims now s).length =
      (sortRevNat (idleChosen now s)).length :=
    length_filterMap_get? s.free _ hlt
  refine ⟨?_, ?_, ?_, ?_, ?_, ?_, ?_⟩
  · rw [htrim]; exact h1
  · intro m; rw [htrim]; exact h2 m
  · intro m; rw [htrim]; exact h3 m
  · rw [htrim]; exact h4
  · rw [htrim, h5, hlenvict]
  · rw [hlenvict]
    unfold sortRevNat
    rw [length_stableSort]
    unfold idleChosen
    rw [List.length_take]
    unfold pySortRevBy
    rw [length_stableSort]
  · intro m hm
    rcases List.mem_filterMap.mp hm with ⟨i, hi, hgi⟩
    have hmem : m ∈ s.free := List.get?_mem hgi
    refine ⟨hmem, ?_⟩
    have hcand : i ∈ idleCandidates now s :=
      idleChosen_subset_candidates now s i hi
    have hpred := (List.mem_filter.mp hcand).2
    rw [hgi] at hpred
    exact of_decide_eq_true hpred

/-- C3 counterexample: with two free members of equal idle age and
create times 5 and 3 and an idle budget of one, the code removes and
closes member 0 (create time 5, the newest created), while ordering
ties by create time ascending as the claim states would remove member
1 (create time 3, the oldest created). -/
theorem idleTrim_tiebreak_counterexample :
    (idleTrim 10 sC3).free = [1] ∧
    (idleTrim 10 sC3).closedSessions = [0] ∧
    (idleTrimClaim 10 sC3).free = [0] ∧
    (idleTrimClaim 10 sC3).closedSessions = [1] := by decide


theorem idleTrim_amended_spec_witness :
    (idleTrim 10 sC3).cleaned_idle =
      sC3.cleaned_idle + (idleVictims 10 sC3).length := by
  have h := idleTrim_amended_spec 10 sC3 (by decide) (by decide)
    (fun m hm => hm) (by decide)
  exact h.2.2.2.2.1
